import Mathlib

/-!
Verification of the IcelandicEval frequency-bucketing and example-generation
pipeline (calc-freq.py) in a shallow embedding.

Modelling choices, stated once:
* Machine integers are `Nat`.  The Python `int(math.log10(freq))` is embedded
  as `Nat.log 10 freq`: for `2 ≤ freq ≤ 99` the double-precision `log10` is
  well below the next integer so truncation agrees with the integer log, and
  for `freq ≥ 100` both sides are `≥ 2` and the surrounding
  `min (MAX_BUCKETS - 1) _` saturates, so the embedding is extensionally
  faithful for every input.
* Files are embedded as values: a bucket file is `Option (List String)`
  (`none` = file absent, `some ls` = its list of newline-terminated lines).
  `Buckets.write` emits one line per lemma, which matches the byte-level file
  exactly when lemmas contain no newline character (lemmas come from
  `str.strip()`-ed single lines, so they never do; theorems that need it take
  it as a hypothesis).
* The external BÍN dictionary (`islenska.Bin`) and the icegrams frequency
  database are black boxes; they are embedded as an explicit `Oracle` record
  of pure functions, universally quantified in the theorems.
* Randomness (`random.sample`, `random.choice`) is embedded by passing the
  sampler / the picked index as an explicit parameter, constrained only by
  the structural properties `random.sample` guarantees (a sample of the
  requested size, without replacement, drawn from the population).
* Python exceptions are embedded with `Except String` / explicit result
  constructors; an uncaught `IndexError` is an `abort` outcome.
-/

namespace IcelandicEval

/-- `MAX_BUCKETS = 3` from calc-freq.py. -/
def MAX_BUCKETS : Nat := 3

/-- `NUM_NOUN_SAMPLES = 1000` from calc-freq.py. -/
def NUM_NOUN_SAMPLES : Nat := 1000

/-- `NUM_ADJECTIVE_SAMPLES = 500` from calc-freq.py. -/
def NUM_ADJECTIVE_SAMPLES : Nat := 500

/-- `AVOID_ADJECTIVES` deny-list from calc-freq.py. -/
def AVOID_ADJECTIVES : List String := ["gar"]

/-- `AVOID_NOUNS` deny-list from calc-freq.py. -/
def AVOID_NOUNS : List String := ["nam", "góða", "ex", "virt", "óþörf", "rift"]

/-- DIFFICULTY mapping from calc-freq.py. -/
def DIFFICULTY (b : Nat) : Option String :=
  match b with
  | 0 => some "hard"
  | 1 => some "medium"
  | 2 => some "easy"
  | _ => none

/-- Embedding of `bucket(freq)` from calc-freq.py:
`0` if `freq <= 1`, else `min(MAX_BUCKETS - 1, int(math.log10(freq)))`. -/
def bucket (freq : Nat) : Nat :=
  if freq ≤ 1 then 0
  else min (MAX_BUCKETS - 1) (Nat.log 10 freq)

theorem log10_eval {n e : Nat} (h1 : 10 ^ e ≤ n) (h2 : n < 10 ^ (e + 1)) :
    Nat.log 10 n = e :=
  Nat.log_eq_of_pow_le_of_lt_pow h1 h2

theorem bucket_eval {n e : Nat} (hn : 1 < n) (h1 : 10 ^ e ≤ n)
    (h2 : n < 10 ^ (e + 1)) : bucket n = min (MAX_BUCKETS - 1) e := by
  rw [bucket, if_neg (Nat.not_le.mpr hn), log10_eval h1 h2]

theorem bucket_mono {f g : Nat} (h : f ≤ g) : bucket f ≤ bucket g := by
  unfold bucket
  by_cases hf : f ≤ 1
  · simp [hf]
  · have hg : ¬ g ≤ 1 := fun hg => hf (le_trans h hg)
    simp only [hf, hg, if_false]
    exact min_le_min le_rfl (Nat.log_mono_right h)

/-- Claim C1: the frequency bucketer is `bucket f = 0` for `f ≤ 1` and
`min (MAX_BUCKETS - 1) (floor (log10 f))` otherwise, with `MAX_BUCKETS = 3`;
it is monotonic non-decreasing, and takes the stated values at
0, 1, 10, 99, 100 and 100000, saturating at bucket 2. -/
theorem C1_bucket_spec :
    (∀ f, f ≤ 1 → bucket f = 0) ∧
    (∀ f, 1 < f → bucket f = min (MAX_BUCKETS - 1) (Nat.log 10 f)) ∧
    MAX_BUCKETS = 3 ∧
    (∀ f g, f ≤ g → bucket f ≤ bucket g) ∧
    bucket 0 = 0 ∧ bucket 1 = 0 ∧ bucket 10 = 1 ∧ bucket 99 = 1 ∧
    bucket 100 = 2 ∧ bucket 100000 = 2 := by
  refine ⟨?_, ?_, rfl, ?_, ?_, ?_, ?_, ?_, ?_, ?_⟩
  · intro f hf; simp [bucket, hf]
  · intro f hf; simp [bucket, Nat.not_le.mpr hf]
  · intro f g h; exact bucket_mono h
  · decide
  · decide
  · rw [bucket_eval (by norm_num) (e := 1) (by norm_num) (by norm_num)]; decide
  · rw [bucket_eval (by norm_num) (e := 1) (by norm_num) (by norm_num)]; decide
  · rw [bucket_eval (by norm_num) (e := 2) (by norm_num) (by norm_num)]; decide
  · rw [bucket_eval (by norm_num) (e := 5) (by norm_num) (by norm_num)]; decide

/-- Witness for C1: the bucketer's clauses and monotonicity applied at
concrete inputs. -/
theorem C1_bucket_spec_witness :
    bucket 1 = 0 ∧ bucket 5 = min (MAX_BUCKETS - 1) (Nat.log 10 5) ∧
    bucket 7 ≤ bucket 70 :=
  ⟨C1_bucket_spec.1 1 (by decide),
   C1_bucket_spec.2.1 5 (by decide),
   C1_bucket_spec.2.2.2.1 7 70 (by decide)⟩

/-! ## The `Buckets` store

`Buckets.buckets` (build phase) is embedded as a total map from bucket index
to the list of lemmas inserted so far, deduplicated on insertion exactly as a
Python `set` is (iteration order of a set is unspecified, so a list with
no duplicates is a faithful embedding).  A bucket file on disk is an
`Option (List String)` of its lines. -/

/-- Embedding of Python `str.strip()`: drop leading and trailing whitespace
characters.  (ASCII whitespace; the inputs are CSV fields.) -/
def strip (s : String) : String :=
  String.mk (((s.data.dropWhile Char.isWhitespace).reverse.dropWhile
    Char.isWhitespace).reverse)

abbrev BucketStore := Nat → List String

/-- The fresh store built by `Buckets.__init__`: every bucket empty. -/
def emptyStore : BucketStore := fun _ => []

/-- Embedding of `Buckets.add`: compute the bucket index from the frequency
and insert the lemma into that bucket's set. -/
def Buckets.add (st : BucketStore) (lem : String) (freq : Nat) : BucketStore :=
  fun i =>
    if i = bucket freq then
      if lem ∈ st i then st i else lem :: st i
    else st i

/-- Embedding of `Buckets.write`, per bucket: if the bucket is empty no file
is produced; otherwise the file holds `random.sample(llist, min(limit, len))`
lemmas, one line each.  `sample` is the explicit embedding of
`random.sample`. -/
def Buckets.write (sample : List String → Nat → List String) (limit : Nat)
    (st : BucketStore) (b : Nat) : Option (List String) :=
  let lemmas := st b
  if lemmas.length < 1 then none
  else some (sample lemmas (min limit lemmas.length))

/-- Embedding of `Buckets.read`: `prior` is the list already held in
`self.lemmas[bucket]` (a fresh `defaultdict` entry is `[]`).  A present file
has each line stripped and appended when non-blank; an absent file triggers
the `except FileNotFoundError` branch, whose `assert` fails unless the
bucket's list is empty. -/
def Buckets.read (prior : List String) (fileLines : Option (List String)) :
    Except String (List String) :=
  match fileLines with
  | some ls =>
      Except.ok (prior ++ ls.filterMap (fun line =>
        let l := strip line
        if l = "" then none else some l))
  | none =>
      if prior.length = 0 then Except.ok prior
      else Except.error "AssertionError"

/-- Embedding of `random.choice(seq)`: picks `seq[i]` for some in-range
index determined by the random source `pick`; on an empty sequence it
raises `IndexError`. -/
def chooseFrom (pick : Nat) (l : List String) : Except String String :=
  match l with
  | [] => Except.error "IndexError"
  | x :: xs => Except.ok ((x :: xs).getD (pick % (xs.length + 1)) x)

/-- Embedding of `Buckets.choose`: if the bucket is not yet cached in
`self.lemmas`, read it from its file (the `defaultdict` supplies a fresh
`[]`), then `random.choice` from the loaded list.  Returns the loaded list
together with the chosen lemma, or the uncaught exception. -/
def Buckets.choose (pick : Nat) (cached : Option (List String))
    (fileLines : Option (List String)) : Except String (List String × String) :=
  let loadedE : Except String (List String) :=
    match cached with
    | some bu => Except.ok bu
    | none => Buckets.read [] fileLines
  match loadedE with
  | Except.error e => Except.error e
  | Except.ok loaded =>
      match chooseFrom pick loaded with
      | Except.error e => Except.error e
      | Except.ok x => Except.ok (loaded, x)

/-- The structural guarantees of `random.sample(l, k)` for the one call site
`(l, k)`: when `k` is in range the sample has exactly `k` elements, drawn
from `l` without replacement. -/
def SampleOK (sample : List String → Nat → List String)
    (l : List String) (k : Nat) : Prop :=
  (k ≤ l.length → (sample l k).length = k) ∧
  (sample l k) ⊆ l ∧
  (l.Nodup → (sample l k).Nodup)

/-- A deterministic stand-in sampler used to instantiate witnesses. -/
def takeSample (l : List String) (k : Nat) : List String := l.take k

theorem takeSample_ok (l : List String) (k : Nat) : SampleOK takeSample l k :=
  ⟨fun h => by simpa [takeSample] using h,
   fun x hx => List.mem_of_mem_take hx,
   fun h => h.sublist (List.take_sublist k l)⟩

theorem write_eq (sample : List String → Nat → List String) (limit : Nat)
    (st : BucketStore) (b : Nat) (h : st b ≠ []) :
    Buckets.write sample limit st b =
      some (sample (st b) (min limit (st b).length)) := by
  have : ¬ (st b).length < 1 := by
    simpa [Nat.lt_one_iff, List.length_eq_zero] using h
  simp [Buckets.write, this]

theorem write_props (sample : List String → Nat → List String) (limit : Nat)
    (st : BucketStore) (b : Nat)
    (hs : SampleOK sample (st b) (min limit (st b).length))
    (hnd : (st b).Nodup) (fl : List String)
    (hw : Buckets.write sample limit st b = some fl) :
    fl.length = min limit (st b).length ∧ fl ⊆ st b ∧ fl.Nodup := by
  by_cases hb : st b = []
  · simp [Buckets.write, hb] at hw
  · rw [write_eq sample limit st b hb] at hw
    obtain ⟨hlen, hsub, hdup⟩ := hs
    cases hw
    exact ⟨hlen (min_le_right _ _), hsub, hdup hnd⟩

theorem mem_iff_of_subset_nodup {l₁ l₂ : List String} (hsub : l₁ ⊆ l₂)
    (h₁ : l₁.Nodup) (h₂ : l₂.Nodup) (hlen : l₂.length ≤ l₁.length) :
    ∀ x, x ∈ l₁ ↔ x ∈ l₂ := by
  have hfs : l₁.toFinset = l₂.toFinset := by
    apply Finset.eq_of_subset_of_card_le
    · intro x hx
      exact List.mem_toFinset.mpr (hsub (List.mem_toFinset.mp hx))
    · rw [List.toFinset_card_of_nodup h₁, List.toFinset_card_of_nodup h₂]
      exact hlen
  intro x
  rw [← List.mem_toFinset, ← List.mem_toFinset (l := l₂), hfs]

/-- Claim C6: per bucket, `write` emits at most `limit` lines; an
over-full bucket is written as exactly `limit` distinct lemmas drawn from
the bucket; a bucket within the cap is written in full (same elements);
an empty bucket produces no file. -/
theorem C6_write_cap (sample : List String → Nat → List String) (limit : Nat)
    (st : BucketStore) (b : Nat)
    (hs : SampleOK sample (st b) (min limit (st b).length))
    (hnd : (st b).Nodup) :
    (∀ fl, Buckets.write sample limit st b = some fl →
        fl.length ≤ limit ∧ fl.Nodup ∧ fl ⊆ st b) ∧
    (st b = [] → Buckets.write sample limit st b = none) ∧
    ((st b).length ≤ limit →
      ∀ fl, Buckets.write sample limit st b = some fl →
        ∀ x, x ∈ fl ↔ x ∈ st b) ∧
    (limit < (st b).length →
      ∀ fl, Buckets.write sample limit st b = some fl →
        fl.length = limit) := by
  refine ⟨?_, ?_, ?_, ?_⟩
  · intro fl hw
    obtain ⟨hlen, hsub, hdup⟩ := write_props sample limit st b hs hnd fl hw
    exact ⟨hlen ▸ min_le_left _ _, hdup, hsub⟩
  · intro hb; simp [Buckets.write, hb]
  · intro hle fl hw
    obtain ⟨hlen, hsub, hdup⟩ := write_props sample limit st b hs hnd fl hw
    have hlen' : fl.length = (st b).length := by
      rw [hlen, min_eq_right hle]
    exact mem_iff_of_subset_nodup hsub hdup hnd (le_of_eq hlen'.symm)
  · intro hlt fl hw
    obtain ⟨hlen, _, _⟩ := write_props sample limit st b hs hnd fl hw
    rw [hlen, min_eq_left (le_of_lt hlt)]

/-- Witness for C6 at a concrete store, limit and sampler. -/
theorem C6_write_cap_witness :
    ["a", "b"].length ≤ 2 ∧ ["a", "b"].Nodup ∧
      ["a", "b"] ⊆ (fun _ : Nat => ["a", "b", "c"]) 0 :=
  (C6_write_cap takeSample 2 (fun _ => ["a", "b", "c"]) 0
    (takeSample_ok _ _) (by decide)).1 ["a", "b"] rfl

theorem filterMap_eq_self_of {α : Type} (p : α → Option α) :
    ∀ l : List α, (∀ x ∈ l, p x = some x) → l.filterMap p = l
  | [], _ => rfl
  | x :: xs, h => by
      rw [List.filterMap_cons, h x (by simp),
        filterMap_eq_self_of p xs (fun y hy => h y (by simp [hy]))]

/-- Claim C5: writing a bucket and reading it back yields a list whose
elements all come from the original bucket, and when the bucket is within
the sample cap the reloaded elements are exactly the bucket's lemmas
(order aside).  Lemmas are the stripped CSV fields the program inserts:
non-empty, strip-invariant, newline-free. -/
theorem C5_roundtrip (sample : List String → Nat → List String) (limit : Nat)
    (st : BucketStore) (b : Nat)
    (hs : SampleOK sample (st b) (min limit (st b).length))
    (hnd : (st b).Nodup)
    (hclean : ∀ l ∈ st b, l ≠ "" ∧ strip l = l ∧ l.data.contains '\n' = false) :
    (∀ fl loaded, Buckets.write sample limit st b = some fl →
        Buckets.read [] (some fl) = Except.ok loaded →
        ∀ x, x ∈ loaded → x ∈ st b) ∧
    ((st b).length ≤ limit →
      ∀ fl loaded, Buckets.write sample limit st b = some fl →
        Buckets.read [] (some fl) = Except.ok loaded →
        ∀ x, x ∈ loaded ↔ x ∈ st b) := by
  have hread : ∀ fl : List String, fl ⊆ st b →
      Buckets.read [] (some fl) = Except.ok fl := by
    intro fl hsub
    have : fl.filterMap (fun line =>
        let l := strip line
        if l = "" then none else some l) = fl := by
      apply filterMap_eq_self_of
      intro x hx
      obtain ⟨hne, htrim, _⟩ := hclean x (hsub hx)
      simp [htrim, hne]
    simp [Buckets.read, this]
  refine ⟨?_, ?_⟩
  · intro fl loaded hw hr x hx
    obtain ⟨_, hsub, _⟩ := write_props sample limit st b hs hnd fl hw
    rw [hread fl hsub] at hr
    cases hr
    exact hsub hx
  · intro hle fl loaded hw hr
    obtain ⟨hlen, hsub, hdup⟩ := write_props sample limit st b hs hnd fl hw
    rw [hread fl hsub] at hr
    cases hr
    have hlen' : fl.length = (st b).length := by
      rw [hlen, min_eq_right hle]
    exact mem_iff_of_subset_nodup hsub hdup hnd (le_of_eq hlen'.symm)

/-- Witness for C5 at a concrete store, limit and sampler: the round trip is
an exact set equality when within the cap. -/
theorem C5_roundtrip_witness :
    ("api" ∈ ["hestur", "api"]) ↔
      "api" ∈ (fun _ : Nat => ["hestur", "api"]) 0 :=
  (C5_roundtrip takeSample 5 (fun _ => ["hestur", "api"]) 0
    (takeSample_ok _ _) (by decide) (by decide)).2 (by decide)
    ["hestur", "api"] ["hestur", "api"] rfl rfl "api"

/-- Claim C7: loading a bucket whose file is absent succeeds (the
`FileNotFoundError` is caught, its `assert` passes) and leaves the bucket
empty; choosing from an empty loaded bucket — in particular one whose file
was never created — raises the `IndexError` empty-selection failure instead
of returning a default. -/
theorem C7_missing_file :
    (Buckets.read [] none = Except.ok []) ∧
    (∀ pick, chooseFrom pick [] = Except.error "IndexError") ∧
    (∀ pick cached, cached = some [] ∨ cached = none →
      Buckets.choose pick cached none = Except.error "IndexError") := by
  refine ⟨rfl, fun _ => rfl, ?_⟩
  rintro pick cached (rfl | rfl) <;> rfl

/-- Witness for C7: choosing from the never-created bucket file fails. -/
theorem C7_missing_file_witness :
    Buckets.choose 0 none none = Except.error "IndexError" :=
  C7_missing_file.2.2 0 none (Or.inr rfl)

/-! ## Input parsing and the corpus processors -/

/-- One BÍN entry as calc-freq.py reads it: `ord` (lemma), `ofl` (category:
kk/kvk/hk/lo), `bmynd` (surface word form). -/
structure BinEntry where
  ord : String
  ofl : String
  bmynd : String
deriving DecidableEq

/-- The external databases as pure functions.  `lookup_lemmas w` and
`lookup w` stand for the entry-list component of the pairs
`b.lookup_lemmas(w)` / `b.lookup(w)` return; `lookup_variants` takes the
word, the category and the feature-tag tuple; `freq` is `ngrams.freq`. -/
structure Oracle where
  lookup_lemmas : String → List BinEntry
  lookup : String → List BinEntry
  lookup_variants : String → String → List String → List BinEntry
  freq : String → Nat

/-- Embedding of Python `str.split(sep)` for a one-character separator,
on the character list.  `split` of the empty string is `[[]]`. -/
def splitChar (c : Char) : List Char → List (List Char)
  | [] => [[]]
  | x :: xs =>
      match splitChar c xs with
      | [] => [[x]]
      | y :: ys => if x = c then [] :: y :: ys else (x :: y) :: ys

/-- `s.split(c)` as a list of strings. -/
def splitOnChar (c : Char) (s : String) : List String :=
  (splitChar c s.data).map String.mk

/-- Python `lemma[0].isupper()` for a non-empty string, `false` on empty.
(`nounLine` models the empty case separately, where Python raises.) -/
def firstIsUpper (s : String) : Bool :=
  match s.data with
  | [] => false
  | c :: _ => c.isUpper

/-- Outcome of feeding one input line to a generator. -/
inductive LineResult
  | skip
  | yield (lem gender : String)
  | raised (msg : String)
deriving DecidableEq

/-- Embedding of one `noun_generator` iteration on one line of nouns.csv:
strip the line, skip if blank; split on comma, skip unless exactly two
fields; then Python evaluates `lemma[0].isupper()` — which raises
`IndexError` when the lemma field is empty — skipping capitalized lemmas
and yielding the rest. -/
def nounLine (line : String) : LineResult :=
  let l := strip line
  if l = "" then LineResult.skip
  else
    match splitOnChar ',' l with
    | [lem, gender] =>
        match lem.data with
        | [] => LineResult.raised "IndexError"
        | c :: _ =>
            if c.isUpper then LineResult.skip
            else LineResult.yield lem gender
    | _ => LineResult.skip

/-- Embedding of `noun_generator` over the whole input: the pairs yielded,
up to the first uncaught exception. -/
def noun_generator (lines : List String) :
    Except String (List (String × String)) :=
  lines.foldl (fun acc line =>
    match acc with
    | Except.error e => Except.error e
    | Except.ok ps =>
        match nounLine line with
        | LineResult.skip => Except.ok ps
        | LineResult.yield lem g => Except.ok (ps ++ [(lem, g)])
        | LineResult.raised msg => Except.error msg) (Except.ok [])

/-- Embedding of `adjective_generator`: strip each line, yield it when
non-blank. -/
def adjective_generator (lines : List String) : List String :=
  lines.filterMap (fun line =>
    let l := strip line
    if l = "" then none else some l)

/-- Embedding of the per-lemma filter body of `process_nouns`: `some freq`
when the lemma passes the single-meaning filter and the word-form-ambiguity
filter (`freq` the summed icegrams frequency of the distinct word forms),
`none` when it is skipped. -/
def nounKeepFreq (o : Oracle) (lem gender : String) : Option Nat :=
  match o.lookup_lemmas lem with
  | [f0] =>
      if f0.ofl ≠ gender then none
      else
        let w := (((o.lookup lem).filter
          (fun f => (f.ord == lem) && (f.ofl == gender))).map
          (fun f => f.bmynd)).dedup
        if w.any (fun wf => (o.lookup wf).any
            (fun e => (e.ofl != gender) || (e.ord != lem))) then none
        else some (w.foldl (fun acc wf => acc + o.freq wf) 0)
  | _ => none

/-- Embedding of the per-lemma filter body of `process_adjectives`: the
"-legur" suffix exclusion and the `AVOID_ADJECTIVES` deny-list come first,
before any dictionary lookup; then the same single-meaning and ambiguity
filters as for nouns, with the category fixed to "lo". -/
def adjKeepFreq (o : Oracle) (lem : String) : Option Nat :=
  if "legur".data.isSuffixOf lem.data then none
  else if lem ∈ AVOID_ADJECTIVES then none
  else
    match o.lookup_lemmas lem with
    | [f0] =>
        if f0.ofl ≠ "lo" then none
        else
          let w := (((o.lookup lem).filter
            (fun f => (f.ord == lem) && (f.ofl == "lo"))).map
            (fun f => f.bmynd)).dedup
          if w.any (fun wf => (o.lookup wf).any
              (fun e => (e.ofl != "lo") || (e.ord != lem))) then none
          else some (w.foldl (fun acc wf => acc + o.freq wf) 0)
    | _ => none

/-- The shared loop body of both processors: keep-or-skip, then `add`. -/
def processStep {α : Type} (keep : α → Option Nat) (lemOf : α → String)
    (st : BucketStore) (a : α) : BucketStore :=
  match keep a with
  | none => st
  | some fr => Buckets.add st (lemOf a) fr

/-- Embedding of the `process_nouns` loop over the pairs `noun_generator`
yields, populating the noun bucket store. -/
def nounBuckets (o : Oracle) (pairs : List (String × String)) : BucketStore :=
  pairs.foldl (processStep (fun p => nounKeepFreq o p.1 p.2) Prod.fst)
    emptyStore

/-- Embedding of the `process_adjectives` loop over `adjective_generator`,
populating the adjective bucket store. -/
def adjBuckets (o : Oracle) (lines : List String) : BucketStore :=
  (adjective_generator lines).foldl (processStep (adjKeepFreq o) id)
    emptyStore

theorem mem_add_elim {st : BucketStore} {lem : String} {freq i : Nat}
    {x : String} (hx : x ∈ Buckets.add st lem freq i) : x ∈ st i ∨ x = lem := by
  unfold Buckets.add at hx
  by_cases hi : i = bucket freq
  · rw [if_pos hi] at hx
    by_cases hm : lem ∈ st i
    · rw [if_pos hm] at hx; exact Or.inl hx
    · rw [if_neg hm] at hx
      rcases List.mem_cons.mp hx with rfl | hx
      · exact Or.inr rfl
      · exact Or.inl hx
  · rw [if_neg hi] at hx; exact Or.inl hx

theorem mem_add_self (st : BucketStore) (lem : String) (freq : Nat) :
    lem ∈ Buckets.add st lem freq (bucket freq) := by
  unfold Buckets.add
  rw [if_pos rfl]
  by_cases hm : lem ∈ st (bucket freq)
  · rw [if_pos hm]; exact hm
  · rw [if_neg hm]; exact List.mem_cons_self _ _

theorem mem_add_mono {st : BucketStore} {lem : String} {freq i : Nat}
    {x : String} (hx : x ∈ st i) : x ∈ Buckets.add st lem freq i := by
  unfold Buckets.add
  by_cases hi : i = bucket freq
  · rw [if_pos hi]
    by_cases hm : lem ∈ st i
    · rw [if_pos hm]; exact hx
    · rw [if_neg hm]; exact List.mem_cons_of_mem _ hx
  · rw [if_neg hi]; exact hx

theorem foldl_process_mem_mono {α : Type} (keep : α → Option Nat)
    (lemOf : α → String) (input : List α) {st : BucketStore} {i : Nat}
    {x : String} (hx : x ∈ st i) :
    x ∈ (input.foldl (processStep keep lemOf) st) i := by
  induction input generalizing st with
  | nil => exact hx
  | cons a input ih =>
      rw [List.foldl_cons]
      apply ih
      unfold processStep
      cases keep a with
      | none => exact hx
      | some fr => exact mem_add_mono hx

theorem foldl_process_mem {α : Type} (keep : α → Option Nat)
    (lemOf : α → String) {input : List α} {a : α} {fr : Nat}
    (ha : a ∈ input) (hk : keep a = some fr) (st : BucketStore) :
    lemOf a ∈ (input.foldl (processStep keep lemOf) st) (bucket fr) := by
  induction input generalizing st with
  | nil => cases ha
  | cons b input ih =>
      rw [List.foldl_cons]
      rcases List.mem_cons.mp ha with rfl | ha
      · apply foldl_process_mem_mono
        unfold processStep
        rw [hk]
        exact mem_add_self st (lemOf a) fr
      · exact ih ha _

theorem foldl_process_not_mem {α : Type} (keep : α → Option Nat)
    (lemOf : α → String) (input : List α) (x : String)
    (hx : ∀ a ∈ input, lemOf a = x → keep a = none) {st : BucketStore}
    (hst : ∀ i, x ∉ st i) :
    ∀ i, x ∉ (input.foldl (processStep keep lemOf) st) i := by
  induction input generalizing st with
  | nil => exact hst
  | cons a input ih =>
      rw [List.foldl_cons]
      apply ih (fun b hb => hx b (List.mem_cons_of_mem _ hb))
      intro i hmem
      unfold processStep at hmem
      cases hka : keep a with
      | none => rw [hka] at hmem; exact hst i hmem
      | some fr =>
          rw [hka] at hmem
          rcases mem_add_elim hmem with hmem | rfl
          · exact hst i hmem
          · rw [hx a (List.mem_cons_self _ _) rfl] at hka; cases hka

/-- Claim C4 names the intended behavior (never raise); the code deviates on
a two-field line with an empty lemma: `",kk"` reaches `lemma[0]` and raises
`IndexError`.  Blank lines, wrong field counts and capitalized lemmas are
silently skipped as claimed. -/
theorem C4_empty_lemma_field_raises :
    nounLine ",kk" = LineResult.raised "IndexError" ∧
    nounLine "" = LineResult.skip ∧
    nounLine "a,b,c" = LineResult.skip ∧
    nounLine "Akureyri,kk" = LineResult.skip ∧
    nounLine "hestur,kk" = LineResult.yield "hestur" "kk" ∧
    noun_generator ["hestur,kk", ",kk"] = Except.error "IndexError" :=
  ⟨rfl, rfl, rfl, rfl, rfl, rfl⟩

/-- A concrete dictionary for counterexamples: the capitalized lemma "Xar"
is a single-meaning, unambiguous adjective. -/
def o2 : Oracle where
  lookup_lemmas := fun lem =>
    if lem = "Xar" then [⟨"Xar", "lo", "Xar"⟩] else []
  lookup := fun w =>
    if w = "Xar" then [⟨"Xar", "lo", "Xar"⟩] else []
  lookup_variants := fun _ _ _ => []
  freq := fun _ => 0

/-- Counterexample to claim C2 as stated: unlike the noun path, the
adjective path has no capitalization check.  With dictionary `o2`, the
capitalized candidate "Xar" passes the whole adjective filter and lands in
bucket 0, so it is not "rejected, never added to any adjective bucket". -/
theorem C2_counterexample :
    firstIsUpper "Xar" = true ∧
    "Xar" ∈ adjective_generator ["Xar"] ∧
    adjKeepFreq o2 "Xar" = some 0 ∧
    "Xar" ∈ adjBuckets o2 ["Xar"] 0 := by
  refine ⟨by decide, by decide, by decide, by decide⟩

/-- Claim C2 (amended): the adjective processor runs the noun algorithm with
the category fixed to "lo", plus the suffix and deny-list exclusions, but it
has no capitalization-rejection step: a capitalized candidate lemma that
passes the exclusions and the dictionary filters is added to its frequency
bucket rather than rejected. -/
theorem C2_no_capitalization_check (o : Oracle) (lines : List String)
    (lem : String) (fr : Nat) (_hcap : firstIsUpper lem = true)
    (hmem : lem ∈ adjective_generator lines)
    (hk : adjKeepFreq o lem = some fr) :
    lem ∈ adjBuckets o lines (bucket fr) :=
  foldl_process_mem (adjKeepFreq o) id hmem hk emptyStore

/-- Witness for the amended C2: the capitalized "Xar" is added. -/
theorem C2_no_capitalization_check_witness :
    "Xar" ∈ adjBuckets o2 ["Xar"] (bucket 0) :=
  C2_no_capitalization_check o2 ["Xar"] "Xar" 0 (by decide) (by decide)
    (by decide)

/-- Claim C8: an adjective lemma ending in "legur" or present in
`AVOID_ADJECTIVES` is skipped before any dictionary lookup (the filter
returns `none` for every oracle), is never added to any adjective bucket,
and never appears in any persisted adjective bucket file. -/
theorem C8_adjective_exclusions (o : Oracle) (lines : List String)
    (lem : String)
    (hex : "legur".data.isSuffixOf lem.data = true ∨ lem ∈ AVOID_ADJECTIVES) :
    adjKeepFreq o lem = none ∧
    (∀ i, lem ∉ adjBuckets o lines i) ∧
    (∀ sample limit i fl, (∀ l k, sample l k ⊆ l) →
        Buckets.write sample limit (adjBuckets o lines) i = some fl →
        lem ∉ fl) := by
  have hnone : adjKeepFreq o lem = none := by
    rcases hex with hsuf | hden
    · simp [adjKeepFreq, hsuf]
    · by_cases hsuf : "legur".data.isSuffixOf lem.data
      · simp [adjKeepFreq, hsuf]
      · simp [adjKeepFreq, hsuf, hden]
  have hnotmem : ∀ i, lem ∉ adjBuckets o lines i := by
    apply foldl_process_not_mem
    · intro a _ h
      rw [show (id a : String) = a from rfl] at h
      rw [h, hnone]
    · intro i
      simp [emptyStore]
  refine ⟨hnone, hnotmem, ?_⟩
  intro sample limit i fl hsub hw
  simp only [Buckets.write] at hw
  split at hw
  · cases hw
  · cases hw
    intro hmem
    exact hnotmem i (hsub _ _ hmem)

/-- Witness for C8: "fallegur" is filtered out before lookup under `o2`. -/
theorem C8_adjective_exclusions_witness :
    adjKeepFreq o2 "fallegur" = none :=
  (C8_adjective_exclusions o2 ["fallegur"] "fallegur" (Or.inl (by decide))).1

/-- A concrete dictionary under which the deny-listed noun "nam" passes all
noun filters. -/
def o9 : Oracle where
  lookup_lemmas := fun lem =>
    if lem = "nam" then [⟨"nam", "hk", "nam"⟩] else []
  lookup := fun w =>
    if w = "nam" then [⟨"nam", "hk", "nam"⟩] else []
  lookup_variants := fun _ _ _ => []
  freq := fun _ => 0

/-- Claim C9: the noun processor never consults `AVOID_NOUNS`: any
deny-listed noun that passes the single-meaning and ambiguity filters is
still added to its bucket (for every dictionary), and concretely "nam"
passes under `o9` and is persisted to the bucket-0 noun file. -/
theorem C9_avoid_nouns_unused :
    (∀ (o : Oracle) (pairs : List (String × String)) (lem gender : String)
        (fr : Nat), (lem, gender) ∈ pairs → lem ∈ AVOID_NOUNS →
        nounKeepFreq o lem gender = some fr →
        lem ∈ nounBuckets o pairs (bucket fr)) ∧
    nounKeepFreq o9 "nam" "hk" = some 0 ∧
    Buckets.write takeSample NUM_NOUN_SAMPLES (nounBuckets o9 [("nam", "hk")])
      0 = some ["nam"] := by
  refine ⟨?_, by decide, by decide⟩
  intro o pairs lem gender fr hmem _ hk
  exact foldl_process_mem (fun p => nounKeepFreq o p.1 p.2) Prod.fst hmem hk
    emptyStore

/-- Witness for C9: the deny-listed "nam" reaches bucket 0 under `o9`. -/
theorem C9_avoid_nouns_unused_witness :
    "nam" ∈ nounBuckets o9 [("nam", "hk")] (bucket 0) :=
  C9_avoid_nouns_unused.1 o9 [("nam", "hk")] "nam" "hk" 0 (by decide)
    (by decide) (by decide)

/-! ## The example generator (`generate`) -/

/-- Python `str.upper()` (ASCII), used for `gender.upper()`. -/
def upper (s : String) : String := String.mk (s.data.map Char.toUpper)

/-- The `ofl` of the first entry of a lookup result; `""` when empty (that
case is only used to state hypotheses — the code itself raises there). -/
def headOfl (l : List BinEntry) : String :=
  match l with
  | [] => ""
  | e :: _ => e.ofl

/-- The data of one generated example that the claims observe: the chosen
adjective strong forms, the noun, and its plural.  (The JSONL record built
from these via the external NounPhrase service adds no control flow and is
not modelled.) -/
structure GenExample where
  adj : String
  adj_ft : String
  noun : String
  noun_ft : String
deriving DecidableEq

/-- Outcome of one iteration of the `while c < count` body. -/
inductive StepResult
  | wrote (ex : GenExample)
  | retry
  | abort (msg : String)
deriving DecidableEq

/-- Embedding of one iteration of the `generate` inner loop: choose an
adjective and a noun from this bucket, take the gender from the noun's
first lookup entry, fetch the adjective's strong nominative singular and
plural variants, then the noun's nominative plural.  Only the noun plural
lookup sits inside `try/except IndexError`; every other empty result raises
an uncaught `IndexError`. -/
def genStep (o : Oracle) (adjList nounList : List String)
    (pickA pickN : Nat) : StepResult :=
  match chooseFrom pickA adjList with
  | Except.error e => StepResult.abort e
  | Except.ok adj_lemma =>
      match chooseFrom pickN nounList with
      | Except.error e => StepResult.abort e
      | Except.ok noun =>
          match o.lookup noun with
          | [] => StepResult.abort "IndexError"
          | e0 :: _ =>
              let gender := e0.ofl
              match o.lookup_variants adj_lemma "lo"
                  [upper gender, "FSB", "NF", "ET"] with
              | [] => StepResult.abort "IndexError"
              | a0 :: _ =>
                  match o.lookup_variants adj_lemma "lo"
                      [upper gender, "FSB", "NF", "FT"] with
                  | [] => StepResult.abort "IndexError"
                  | a1 :: _ =>
                      match o.lookup_variants noun gender ["NF", "FT"] with
                      | [] => StepResult.retry
                      | n0 :: _ =>
                          StepResult.wrote ⟨a0.bmynd, a1.bmynd, noun, n0.bmynd⟩

/-- Outcome of running the per-bucket loop with bounded unfolding. -/
inductive GenOutcome
  | done (written : List GenExample)
  | aborted (written : List GenExample) (msg : String)
  | fuelOut (written : List GenExample)
deriving DecidableEq

/-- Embedding of the `while c < count` loop of `generate` for one bucket.
`picks i` supplies the two random indices of iteration `i`; `fuel` bounds
how many iterations we unfold — the Python loop has no such bound, so
non-termination shows up as `fuelOut` for every fuel. -/
def genLoop (o : Oracle) (adjList nounList : List String)
    (picks : Nat → Nat × Nat) (count : Nat) :
    Nat → Nat → List GenExample → GenOutcome
  | 0, _, acc =>
      if count ≤ acc.length then GenOutcome.done acc.reverse
      else GenOutcome.fuelOut acc.reverse
  | fuel + 1, i, acc =>
      if count ≤ acc.length then GenOutcome.done acc.reverse
      else
        match genStep o adjList nounList (picks i).1 (picks i).2 with
        | StepResult.abort e => GenOutcome.aborted acc.reverse e
        | StepResult.retry =>
            genLoop o adjList nounList picks count fuel (i + 1) acc
        | StepResult.wrote ex =>
            genLoop o adjList nounList picks count fuel (i + 1) (ex :: acc)

theorem getD_mem {l : List String} {d : String} (i : Nat) (hd : d ∈ l) :
    l.getD i d ∈ l := by
  rw [List.getD_eq_getElem?_getD]
  cases he : l[i]? with
  | none => simpa [he] using hd
  | some v => simp [he, List.getElem?_mem he]

theorem chooseFrom_ok {l : List String} (pick : Nat) (h : l ≠ []) :
    ∃ x, chooseFrom pick l = Except.ok x ∧ x ∈ l := by
  match l, h with
  | x :: xs, _ =>
      exact ⟨_, rfl, getD_mem _ (List.mem_cons_self _ _)⟩

theorem chooseFrom_mem {pick : Nat} {l : List String} {x : String}
    (h : chooseFrom pick l = Except.ok x) : x ∈ l := by
  match l, h with
  | y :: ys, h =>
      cases h
      exact getD_mem _ (List.mem_cons_self _ _)

/-- Claim C3: a draw whose noun has no nominative-plural variant is
discarded by the `except IndexError: continue` without counting toward
`count`, and the loop retries; when every noun of the bucket lacks a plural
form (and the unguarded lookups succeed) every iteration is such a retry, so
for any number of loop unfoldings no example is ever written and the loop
never reaches `count`: generation for that bucket does not terminate. -/
theorem C3_no_plural_nontermination (o : Oracle)
    (adjList nounList : List String) (count : Nat)
    (ha : adjList ≠ []) (hn : nounList ≠ [])
    (hnoun : ∀ n ∈ nounList, o.lookup n ≠ [])
    (hadj : ∀ a ∈ adjList, ∀ n ∈ nounList,
        o.lookup_variants a "lo"
          [upper (headOfl (o.lookup n)), "FSB", "NF", "ET"] ≠ [] ∧
        o.lookup_variants a "lo"
          [upper (headOfl (o.lookup n)), "FSB", "NF", "FT"] ≠ [])
    (hplural : ∀ n ∈ nounList,
        o.lookup_variants n (headOfl (o.lookup n)) ["NF", "FT"] = []) :
    (∀ pickA pickN,
        genStep o adjList nounList pickA pickN = StepResult.retry) ∧
    (∀ picks fuel i acc, acc.length < count →
        genLoop o adjList nounList picks count fuel i acc =
          GenOutcome.fuelOut acc.reverse) := by
  have hstep : ∀ pickA pickN,
      genStep o adjList nounList pickA pickN = StepResult.retry := by
    intro pickA pickN
    obtain ⟨a, hA, haMem⟩ := chooseFrom_ok pickA ha
    obtain ⟨n, hN, hnMem⟩ := chooseFrom_ok pickN hn
    unfold genStep
    rw [hA, hN]
    cases hl : o.lookup n with
    | nil => exact absurd hl (hnoun n hnMem)
    | cons e0 rest =>
        have hofl : headOfl (o.lookup n) = e0.ofl := by rw [hl]; rfl
        obtain ⟨hET, hFT⟩ := hadj a haMem n hnMem
        rw [hofl] at hET hFT
        have hpl := hplural n hnMem
        rw [hofl] at hpl
        cases hETc : o.lookup_variants a "lo" [upper e0.ofl, "FSB", "NF", "ET"] with
        | nil => exact absurd hETc hET
        | cons a0 r0 =>
            cases hFTc : o.lookup_variants a "lo" [upper e0.ofl, "FSB", "NF", "FT"] with
            | nil => exact absurd hFTc hFT
            | cons a1 r1 => simp [hl, hETc, hFTc, hpl]
  refine ⟨hstep, ?_⟩
  intro picks fuel
  induction fuel with
  | zero =>
      intro i acc hlt
      unfold genLoop
      rw [if_neg (Nat.not_le.mpr hlt)]
  | succ fuel ih =>
      intro i acc hlt
      unfold genLoop
      rw [if_neg (Nat.not_le.mpr hlt), hstep]
      exact ih (i + 1) acc hlt

/-- A concrete dictionary whose only noun "herfi" has no plural variant
while the adjective "ljótur" has all its strong forms. -/
def o3 : Oracle where
  lookup_lemmas := fun _ => []
  lookup := fun w =>
    if w = "herfi" then [⟨"herfi", "hk", "herfi"⟩] else []
  lookup_variants := fun lem _ _ =>
    if lem = "ljótur" then [⟨"ljótur", "lo", "ljótt"⟩] else []
  freq := fun _ => 0

/-- Witness for C3: with `o3`, five unfoldings of the bucket loop write
nothing and run out of fuel. -/
theorem C3_no_plural_nontermination_witness :
    genLoop o3 ["ljótur"] ["herfi"] (fun _ => (0, 0)) 1 5 0 [] =
      GenOutcome.fuelOut [] :=
  (C3_no_plural_nontermination o3 ["ljótur"] ["herfi"] 1 (by decide)
    (by decide) (by decide) (by decide) (by decide)).2
    (fun _ => (0, 0)) 5 0 [] (by decide)

/-- Claim C10: only the noun plural variant lookup is guarded by
`try/except`.  When the chosen noun's dictionary lookup yields no entries,
or either adjective strong-form variant lookup (singular or plural) is
empty, the step is an uncaught `IndexError` and the loop aborts the run
with it; only an empty noun-plural lookup is a discarded-and-retried
draw. -/
theorem C10_unguarded_lookups (o : Oracle) (adjList nounList : List String)
    (pickA pickN : Nat) (a n : String)
    (hA : chooseFrom pickA adjList = Except.ok a)
    (hN : chooseFrom pickN nounList = Except.ok n) :
    (o.lookup n = [] →
        genStep o adjList nounList pickA pickN =
          StepResult.abort "IndexError") ∧
    (∀ e0 rest, o.lookup n = e0 :: rest →
        o.lookup_variants a "lo" [upper e0.ofl, "FSB", "NF", "ET"] = [] →
        genStep o adjList nounList pickA pickN =
          StepResult.abort "IndexError") ∧
    (∀ e0 rest a0 r0, o.lookup n = e0 :: rest →
        o.lookup_variants a "lo" [upper e0.ofl, "FSB", "NF", "ET"] = a0 :: r0 →
        o.lookup_variants a "lo" [upper e0.ofl, "FSB", "NF", "FT"] = [] →
        genStep o adjList nounList pickA pickN =
          StepResult.abort "IndexError") ∧
    (∀ e0 rest a0 r0 a1 r1, o.lookup n = e0 :: rest →
        o.lookup_variants a "lo" [upper e0.ofl, "FSB", "NF", "ET"] = a0 :: r0 →
        o.lookup_variants a "lo" [upper e0.ofl, "FSB", "NF", "FT"] = a1 :: r1 →
        o.lookup_variants n e0.ofl ["NF", "FT"] = [] →
        genStep o adjList nounList pickA pickN = StepResult.retry) ∧
    (∀ picks count fuel i acc, acc.length < count →
        (genStep o adjList nounList (picks i).1 (picks i).2 =
            StepResult.abort "IndexError" →
          genLoop o adjList nounList picks count (fuel + 1) i acc =
            GenOutcome.aborted acc.reverse "IndexError") ∧
        (genStep o adjList nounList (picks i).1 (picks i).2 =
            StepResult.retry →
          genLoop o adjList nounList picks count (fuel + 1) i acc =
            genLoop o adjList nounList picks count fuel (i + 1) acc)) := by
  refine ⟨?_, ?_, ?_, ?_, ?_⟩
  · intro hl
    simp [genStep, hA, hN, hl]
  · intro e0 rest hl hET
    simp [genStep, hA, hN, hl, hET]
  · intro e0 rest a0 r0 hl hET hFT
    simp [genStep, hA, hN, hl, hET, hFT]
  · intro e0 rest a0 r0 a1 r1 hl hET hFT hpl
    simp [genStep, hA, hN, hl, hET, hFT, hpl]
  · intro picks count fuel i acc hlt
    constructor
    · intro hstep
      unfold genLoop
      rw [if_neg (Nat.not_le.mpr hlt), hstep]
    · intro hstep
      conv in genLoop o adjList nounList picks count (fuel + 1) i acc =>
        unfold genLoop
      rw [if_neg (Nat.not_le.mpr hlt), hstep]

/-- Witness for C10: under `o3` with the noun "x" absent from the
dictionary, the step is an uncaught `IndexError` and the loop aborts. -/
theorem C10_unguarded_lookups_witness :
    genStep o3 ["ljótur"] ["x"] 0 0 = StepResult.abort "IndexError" ∧
    genLoop o3 ["ljótur"] ["x"] (fun _ => (0, 0)) 1 3 0 [] =
      GenOutcome.aborted [] "IndexError" := by
  have h := C10_unguarded_lookups o3 ["ljótur"] ["x"] 0 0 "ljótur" "x"
    rfl rfl
  exact ⟨h.1 (by decide),
    (h.2.2.2.2 (fun _ => (0, 0)) 1 2 0 [] (by decide)).1 (h.1 (by decide))⟩

end IcelandicEval
